import Mathlib

set_option maxHeartbeats 1000000

/- Shallow embedding of the electron-ipc-decorator library
   (src/base.ts and src/client.ts), with theorems about its
   registration, dispatch, context and proxy behaviour. -/

/-- Model of an Electron WebContents endpoint, identified by a number. -/
structure WebContents where
  id : Nat
  deriving DecidableEq, Repr

/-- Model of an Electron IpcMainInvokeEvent: it carries its sender plus other data. -/
structure IpcMainInvokeEvent where
  sender : WebContents
  frameId : Nat
  deriving DecidableEq, Repr

/-- Mirrors the IpcContext interface of base.ts: the sender and the raw event. -/
structure IpcContext where
  sender : WebContents
  event : IpcMainInvokeEvent
  deriving DecidableEq, Repr

/-- Model of JavaScript values crossing the IPC boundary. -/
inductive Val where
  | vstr : String → Val
  | vnat : Nat → Val
  deriving DecidableEq, Repr

/-- Model of a JavaScript Error carrying a message. -/
inductive JsError where
  | error : String → JsError
  deriving DecidableEq, Repr

/-- Ambient store of the AsyncLocalStorage: some context while inside
contextStorage.run, none outside any call scope. -/
abbrev AmbientStore := Option IpcContext

/-- A user handler as passed to registerMethod. In JavaScript the handler reads
the ambient AsyncLocalStorage implicitly; the shallow embedding passes the
store explicitly as a first argument. -/
abbrev Handler := AmbientStore → List Val → Except JsError Val

/-- Embeds getIpcContext of base.ts: reads contextStorage.getStore() and throws
with a fixed message when no store is set. -/
def getIpcContext (store : AmbientStore) : Except JsError IpcContext :=
  match store with
  | none =>
      .error (.error "IPC context is not available. Make sure this is called within an IPC handler.")
  | some ctx => .ok ctx

/-- Embeds contextStorage.run(context, fn): fn executes with the ambient store
set to the given context. -/
def contextRun {α : Type} (ctx : IpcContext) (fn : AmbientStore → α) : α :=
  fn (some ctx)

/-- One console.error record: the formatted message plus the raised error. -/
structure LogEntry where
  message : String
  error : JsError
  deriving DecidableEq, Repr

/-- Embeds the listener that registerMethod installs via ipcMain.handle: it
builds the call context from the inbound event, runs the handler inside
contextStorage.run with the original arguments, returns the resolved value,
and on failure logs the channel with the error and re-raises it. -/
def installedListener (channel : String) (handler : Handler)
    (event : IpcMainInvokeEvent) (args : List Val) :
    Except JsError Val × List LogEntry :=
  let context : IpcContext := { sender := event.sender, event := event }
  match contextRun context (fun store => handler store args) with
  | .ok v => (.ok v, [])
  | .error e =>
      (.error e, [{ message := "Error in IPC method " ++ channel ++ ":", error := e }])

/-- Model of one installed ipcMain listener. -/
abbrev Listener := IpcMainInvokeEvent → List Val → Except JsError Val × List LogEntry

/-- State of the IpcHandler singleton together with the ipcMain.handle
installations made so far. -/
structure IpcHandlerState where
  registeredChannels : List String
  installedListeners : List (String × Listener)

/-- State of a fresh IpcHandler singleton: nothing registered. -/
def initState : IpcHandlerState :=
  { registeredChannels := [], installedListeners := [] }

/-- Embeds IpcHandler.registerMethod: it returns early when the channel is
already registered, otherwise records the channel and installs one listener
through ipcMain.handle. -/
def registerMethod (s : IpcHandlerState) (channel : String) (handler : Handler) :
    IpcHandlerState :=
  if channel ∈ s.registeredChannels then s
  else
    { registeredChannels := channel :: s.registeredChannels,
      installedListeners :=
        s.installedListeners ++ [(channel, installedListener channel handler)] }

/-- Value of an instance property named in the decorated-method metadata. -/
inductive PropVal where
  | func : Handler → PropVal
  | nonFunc : Val → PropVal

/-- Model of a service class: its constructor name, its static groupName (none
when the class omits it), the decorated method names in declaration order, and
the current instance property for each name. -/
structure ServiceClass where
  className : String
  groupName : Option String
  decoratedMethods : List String
  props : String → PropVal

/-- JavaScript template-literal rendering of a possibly missing groupName: the
undefined value renders as the string undefined. -/
def jsString (g : Option String) : String :=
  match g with
  | none => "undefined"
  | some s => s

/-- True when the instance property for the name is currently a function. -/
def isCallable (cls : ServiceClass) (n : String) : Bool :=
  match cls.props n with
  | .func _ => true
  | .nonFunc _ => false

/-- Embeds one iteration of IpcService.registerMethods: look the property up,
and when it is a function register it under the channel groupName dot
methodName; otherwise skip it silently. -/
def registerOneMethod (cls : ServiceClass) (st : IpcHandlerState) (n : String) :
    IpcHandlerState :=
  match cls.props n with
  | .func h => registerMethod st (jsString cls.groupName ++ "." ++ n) h
  | .nonFunc _ => st

/-- Embeds IpcService.registerMethods, run by the IpcService constructor: it
walks the decorated method names of the class in declaration order. -/
def registerMethods (cls : ServiceClass) (s : IpcHandlerState) : IpcHandlerState :=
  cls.decoratedMethods.foldl (registerOneMethod cls) s

/-- Instances are determined by their class in this model. -/
abbrev ServiceInstance := ServiceClass

/-- JavaScript object assignment services[k] = v: it overwrites in place when
the key exists and otherwise appends the new key. -/
def setKey (m : List (String × ServiceInstance)) (k : String) (v : ServiceInstance) :
    List (String × ServiceInstance) :=
  if m.any (fun p => p.1 = k) then
    m.map (fun p => if p.1 = k then (k, v) else p)
  else m ++ [(k, v)]

/-- JavaScript property read on the built services object. -/
def lookupKey (m : List (String × ServiceInstance)) (k : String) :
    Option ServiceInstance :=
  (m.find? (fun p => p.1 = k)).map (fun p => p.2)

/-- The groupName when it is usable: present and non-empty, matching the
JavaScript truthiness test applied by createServices. -/
def usableGroupName (cls : ServiceClass) : Option String :=
  match cls.groupName with
  | none => none
  | some g => if g = "" then none else some g

/-- The error createServices raises for a class without a usable groupName. -/
def mkGroupErr (name : String) : JsError :=
  .error ("Service " ++ name ++ " must define a static readonly groupName property")

/-- Embeds the loop of createServices: construct each instance first (the
IpcService constructor registers the decorated methods), then check the
groupName, then store the instance under it. -/
def createServicesAux (classes : List ServiceClass)
    (acc : List (String × ServiceInstance)) (s : IpcHandlerState) :
    Except JsError (List (String × ServiceInstance)) × IpcHandlerState :=
  match classes with
  | [] => (.ok acc, s)
  | cls :: rest =>
      let s2 := registerMethods cls s
      match usableGroupName cls with
      | none => (.error (mkGroupErr cls.className), s2)
      | some g => createServicesAux rest (setKey acc g cls) s2

/-- Embeds createServices of base.ts, threading the process-wide handler state. -/
def createServices (classes : List ServiceClass) (s : IpcHandlerState) :
    Except JsError (List (String × ServiceInstance)) × IpcHandlerState :=
  createServicesAux classes [] s

/-- Last class in the list whose usable groupName equals the key. -/
def lastWithGroup (classes : List ServiceClass) (k : String) : Option ServiceClass :=
  match classes with
  | [] => none
  | cls :: rest =>
      match lastWithGroup rest k with
      | some c => some c
      | none => if usableGroupName cls = some k then some cls else none

/-- Model of the outbound transport handle: the eventual outcome of ipc.invoke
for every channel and argument list. -/
abbrev IpcRenderer := String → List Val → Except JsError Val

/-- One outbound ipc.invoke call record. -/
structure InvokeRecord where
  channel : String
  args : List Val
  deriving DecidableEq, Repr

/-- Embeds ipc.invoke: exactly one outbound call, returning the transport
outcome unchanged. -/
def invoke (ipc : IpcRenderer) (channel : String) (args : List Val) :
    Except JsError Val × List InvokeRecord :=
  (ipc channel args, [{ channel := channel, args := args }])

/-- Model of one cached group sub-proxy: the group key it closes over plus an
object identity distinguishing separately allocated proxies. -/
structure GroupProxy where
  groupName : String
  objectId : Nat
  deriving DecidableEq, Repr

/-- Mutable state of the outer proxy: the per-group cache plus an allocation
counter supplying object identities. -/
structure ProxyState where
  cache : List (String × GroupProxy)
  nextId : Nat
  deriving DecidableEq, Repr

/-- Cache state of a freshly created proxy. -/
def initProxyState : ProxyState := { cache := [], nextId := 0 }

/-- Embeds createIpcProxy of client.ts: a null transport handle yields null,
otherwise a proxy over that handle with an empty group cache. -/
def createIpcProxy (ipc : Option IpcRenderer) : Option (IpcRenderer × ProxyState) :=
  match ipc with
  | none => none
  | some f => some (f, initProxyState)

/-- Embeds the get trap of the outer proxy: return the cached sub-proxy for the
group key, or allocate a fresh one, cache it and return it. -/
def proxyGet (st : ProxyState) (groupName : String) : GroupProxy × ProxyState :=
  match st.cache.find? (fun p => p.1 = groupName) with
  | some p => (p.2, st)
  | none =>
      let gp : GroupProxy := { groupName := groupName, objectId := st.nextId }
      (gp, { cache := st.cache ++ [(groupName, gp)], nextId := st.nextId + 1 })

/-- Embeds a method call through a group sub-proxy: derive the channel by
literal concatenation of the group key, a dot and the method key, and issue
exactly one ipc.invoke with the arguments in order. -/
def groupProxyCall (ipc : IpcRenderer) (gp : GroupProxy) (methodName : String)
    (args : List Val) : Except JsError Val × List InvokeRecord :=
  invoke ipc (gp.groupName ++ "." ++ methodName) args

/-- Consistency of the proxy cache: every cached sub-proxy closes over its own
cache key. -/
def cacheConsistent (st : ProxyState) : Prop :=
  ∀ p ∈ st.cache, p.2.groupName = p.1

/- Concrete fixtures used by witness theorems. -/

/-- Sample sender endpoint. -/
def sampleSender : WebContents := { id := 1 }

/-- Sample inbound invoke event. -/
def sampleEvent : IpcMainInvokeEvent := { sender := sampleSender, frameId := 0 }

/-- A handler that resolves with a string. -/
def okHandler : Handler := fun _ _ => .ok (.vstr "result")

/-- A handler that always rejects. -/
def failHandler : Handler := fun _ _ => .error (.error "Test error")

/- Helper lemmas shared by the claim theorems. -/

/-- Membership in the registered channels after one registerMethod call. -/
theorem mem_registerMethod (s : IpcHandlerState) (c : String) (h : Handler)
    (c2 : String) :
    c2 ∈ (registerMethod s c h).registeredChannels ↔
      c2 = c ∨ c2 ∈ s.registeredChannels := by
  unfold registerMethod
  by_cases hc : c ∈ s.registeredChannels
  · simp only [hc, if_pos]
    constructor
    · intro hm; exact Or.inr hm
    · rintro (rfl | hm)
      · exact hc
      · exact hm
  · simp [hc]


/-- C1: registerMethod is idempotent per channel. For every channel c and
handlers h1, h2, registering c twice installs exactly one transport-level
listener, the second call is a no-op returning the state unchanged without
error, and one new listener is installed per fresh channel; afterwards the
registered-channel set contains c. -/
theorem c1_registerMethod_idempotent :
    (∀ (s : IpcHandlerState) (c : String) (h1 h2 : Handler),
      registerMethod (registerMethod s c h1) c h2 = registerMethod s c h1) ∧
    (∀ (c : String) (h1 h2 : Handler),
      (registerMethod (registerMethod initState c h1) c h2).installedListeners.length = 1 ∧
      c ∈ (registerMethod (registerMethod initState c h1) c h2).registeredChannels) ∧
    (∀ (s : IpcHandlerState) (c : String) (h1 h2 : Handler),
      c ∉ s.registeredChannels →
      (registerMethod (registerMethod s c h1) c h2).installedListeners.length =
        s.installedListeners.length + 1) := by
  have halready : ∀ (s : IpcHandlerState) (c : String) (h : Handler),
      c ∈ s.registeredChannels → registerMethod s c h = s := by
    intro s c h hc
    unfold registerMethod
    simp [hc]
  have hfix : ∀ (s : IpcHandlerState) (c : String) (h1 h2 : Handler),
      registerMethod (registerMethod s c h1) c h2 = registerMethod s c h1 := by
    intro s c h1 h2
    exact halready _ _ _ ((mem_registerMethod s c h1 c).mpr (Or.inl rfl))
  refine ⟨hfix, ?_, ?_⟩
  · intro c h1 h2
    rw [hfix]
    constructor
    · simp [registerMethod, initState]
    · rw [mem_registerMethod]; exact Or.inl rfl
  · intro s c h1 h2 hc
    rw [hfix]
    simp [registerMethod, hc]

/-- Closed instance of C1 at a concrete fresh channel. -/
theorem c1_witness :
    "test.method" ∉ initState.registeredChannels ∧
    (registerMethod (registerMethod initState "test.method" okHandler)
        "test.method" failHandler).installedListeners.length =
      initState.installedListeners.length + 1 := by
  have hnotin : "test.method" ∉ initState.registeredChannels := by
    simp [initState]
  exact ⟨hnotin,
    c1_registerMethod_idempotent.2.2 initState "test.method" okHandler failHandler hnotin⟩

/-- C2: the listener installed for a registered channel invokes the handler
with exactly the inbound arguments, its reply payload equals the handler
outcome run with an ambient store holding the context built from the event
(whose sender is the event sender and whose event is the event itself), the
context accessor returns exactly that context during the call, and
registerMethod on a fresh channel installs precisely this listener. -/
theorem c2_listener_dispatch :
    (∀ (c : String) (h : Handler) (e : IpcMainInvokeEvent) (args : List Val),
      (installedListener c h e args).1 =
        h (some { sender := e.sender, event := e }) args) ∧
    (∀ (e : IpcMainInvokeEvent),
      getIpcContext (some { sender := e.sender, event := e }) =
        .ok { sender := e.sender, event := e }) ∧
    (∀ (c : String) (h : Handler),
      (registerMethod initState c h).installedListeners =
        [(c, installedListener c h)]) := by
  refine ⟨?_, ?_, ?_⟩
  · intro c h e args
    cases hres : h (some { sender := e.sender, event := e }) args <;>
      simp [installedListener, contextRun, hres]
  · intro e
    rfl
  · intro c h
    have hc : c ∉ initState.registeredChannels := by simp [initState]
    simp [registerMethod, hc, initState]

/-- C3: getIpcContext with no active call scope always raises with the exact
documented message and never returns a context value. -/
theorem c3_getIpcContext_no_scope :
    getIpcContext none =
      .error (.error "IPC context is not available. Make sure this is called within an IPC handler.") ∧
    ∀ ctx : IpcContext, getIpcContext none ≠ .ok ctx := by
  constructor
  · rfl
  · intro ctx h
    cases h

/-- C5: when the handler rejects with err during an inbound invocation, the
installed listener logs exactly one entry carrying the channel name and err,
and re-raises err unchanged as the reply. -/
theorem c5_error_logged_and_reraised
    (c : String) (h : Handler) (e : IpcMainInvokeEvent) (args : List Val)
    (err : JsError)
    (hfail : h (some { sender := e.sender, event := e }) args = .error err) :
    installedListener c h e args =
      (.error err,
       [{ message := "Error in IPC method " ++ c ++ ":", error := err }]) := by
  simp [installedListener, contextRun, hfail]

/-- Closed instance of C5 with a concrete rejecting handler. -/
theorem c5_witness :
    failHandler (some { sender := sampleEvent.sender, event := sampleEvent }) [] =
      .error (.error "Test error") ∧
    installedListener "test.error" failHandler sampleEvent [] =
      (.error (.error "Test error"),
       [{ message := "Error in IPC method " ++ "test.error" ++ ":",
          error := .error "Test error" }]) :=
  ⟨rfl, c5_error_logged_and_reraised "test.error" failHandler sampleEvent []
      (.error "Test error") rfl⟩


/-- Sub-proxy lookup in a consistent cache returns a sub-proxy closing over the
requested group key, and the cache stays consistent. -/
theorem proxyGet_groupName (st : ProxyState) (g : String)
    (hcons : cacheConsistent st) :
    (proxyGet st g).1.groupName = g ∧ cacheConsistent (proxyGet st g).2 := by
  unfold proxyGet
  cases hfind : st.cache.find? (fun p => p.1 = g) with
  | none =>
      constructor
      · rfl
      · intro p hp
        simp only [List.mem_append, List.mem_singleton] at hp
        rcases hp with hp | hp
        · exact hcons p hp
        · subst hp; rfl
  | some p =>
      have hmem : p ∈ st.cache := List.mem_of_find?_eq_some hfind
      have hkey : p.1 = g := by
        have := List.find?_some hfind
        simpa using this
      constructor
      · rw [hcons p hmem, hkey]
      · exact hcons

/-- C4: createIpcProxy on a null handle returns null; on a real handle it
returns a proxy with an empty consistent cache, and every proxy method call
through a group sub-proxy issues exactly one outbound invoke on the channel
formed by concatenating the group key, a dot and the method key, with the
arguments in order, and returns the transport outcome unchanged. -/
theorem c4_createIpcProxy_dispatch :
    createIpcProxy none = none ∧
    (∀ ipc : IpcRenderer,
      createIpcProxy (some ipc) = some (ipc, initProxyState) ∧
      cacheConsistent initProxyState) ∧
    (∀ (ipc : IpcRenderer) (st : ProxyState) (g m : String) (args : List Val),
      cacheConsistent st →
      groupProxyCall ipc (proxyGet st g).1 m args =
        (ipc (g ++ "." ++ m) args,
         [{ channel := g ++ "." ++ m, args := args }])) := by
  refine ⟨rfl, ?_, ?_⟩
  · intro ipc
    refine ⟨rfl, ?_⟩
    intro p hp
    simp [initProxyState] at hp
  · intro ipc st g m args hcons
    have hg := (proxyGet_groupName st g hcons).1
    unfold groupProxyCall invoke
    rw [hg]

/-- Closed instance of C4 at a concrete transport, group and method. -/
theorem c4_witness :
    cacheConsistent initProxyState ∧
    groupProxyCall (fun _ _ => .ok (.vstr "1.0.0"))
        (proxyGet initProxyState "app").1 "getVersion" [] =
      ((fun _ _ => .ok (.vstr "1.0.0") : IpcRenderer) ("app" ++ "." ++ "getVersion") [],
       [{ channel := "app" ++ "." ++ "getVersion", args := [] }]) := by
  have hcons : cacheConsistent initProxyState := by
    intro p hp
    simp [initProxyState] at hp
  exact ⟨hcons, c4_createIpcProxy_dispatch.2.2 (fun _ _ => .ok (.vstr "1.0.0"))
    initProxyState "app" "getVersion" [] hcons⟩


/-- C9: for a proxy with a consistent cache, reading the same group key twice
returns the identical cached sub-object and leaves the cache unchanged, while
two distinct group keys yield distinct sub-objects whose method calls dispatch
on their own group channels independently. -/
theorem c9_group_cache_identity :
    (∀ (st : ProxyState) (g : String),
      proxyGet (proxyGet st g).2 g = ((proxyGet st g).1, (proxyGet st g).2)) ∧
    (∀ (st : ProxyState) (g1 g2 : String),
      cacheConsistent st → g1 ≠ g2 →
      (proxyGet st g1).1 ≠ (proxyGet (proxyGet st g1).2 g2).1 ∧
      ∀ (ipc : IpcRenderer) (m : String) (args : List Val),
        groupProxyCall ipc (proxyGet st g1).1 m args =
          (ipc (g1 ++ "." ++ m) args,
           [{ channel := g1 ++ "." ++ m, args := args }]) ∧
        groupProxyCall ipc (proxyGet (proxyGet st g1).2 g2).1 m args =
          (ipc (g2 ++ "." ++ m) args,
           [{ channel := g2 ++ "." ++ m, args := args }])) := by
  constructor
  · intro st g
    cases hfind : st.cache.find? (fun p => p.1 = g) with
    | some p => simp [proxyGet, hfind]
    | none => simp [proxyGet, hfind, List.find?_append]
  · intro st g1 g2 hcons hne
    have h1 := proxyGet_groupName st g1 hcons
    have h2 := proxyGet_groupName (proxyGet st g1).2 g2 h1.2
    constructor
    · intro heq
      apply hne
      rw [← h1.1, ← h2.1, heq]
    · intro ipc m args
      constructor
      · unfold groupProxyCall invoke
        rw [h1.1]
      · unfold groupProxyCall invoke
        rw [h2.1]

/-- Closed instance of C9 at two concrete distinct group keys. -/
theorem c9_witness :
    cacheConsistent initProxyState ∧ ("app" : String) ≠ "user" ∧
    (proxyGet initProxyState "app").1 ≠
      (proxyGet (proxyGet initProxyState "app").2 "user").1 := by
  have hcons : cacheConsistent initProxyState := by
    intro p hp
    simp [initProxyState] at hp
  have hne : ("app" : String) ≠ "user" := by decide
  exact ⟨hcons, hne,
    (c9_group_cache_identity.2 initProxyState "app" "user" hcons hne).1⟩


/-- Channels registered by folding registerOneMethod over a name list: exactly
the old channels plus one channel per name whose property is callable. -/
theorem mem_foldl_registerOne (cls : ServiceClass) :
    ∀ (l : List String) (s : IpcHandlerState) (c : String),
      c ∈ (l.foldl (registerOneMethod cls) s).registeredChannels ↔
        c ∈ s.registeredChannels ∨
        ∃ n, n ∈ l ∧ isCallable cls n = true ∧
          c = jsString cls.groupName ++ "." ++ n := by
  intro l
  induction l with
  | nil =>
      intro s c
      simp
  | cons n rest ih =>
      intro s c
      rw [List.foldl_cons, ih]
      cases hpn : cls.props n with
      | func h =>
          have hstep : registerOneMethod cls s n =
              registerMethod s (jsString cls.groupName ++ "." ++ n) h := by
            unfold registerOneMethod
            rw [hpn]
          have hcall : isCallable cls n = true := by
            unfold isCallable
            rw [hpn]
          rw [hstep, mem_registerMethod]
          constructor
          · rintro (( rfl | hm) | ⟨n2, hn2, hc2, rfl⟩)
            · exact Or.inr ⟨n, List.mem_cons_self n rest, hcall, rfl⟩
            · exact Or.inl hm
            · exact Or.inr ⟨n2, List.mem_cons_of_mem n hn2, hc2, rfl⟩
          · rintro (hm | ⟨n2, hn2, hc2, rfl⟩)
            · exact Or.inl (Or.inr hm)
            · rcases List.mem_cons.mp hn2 with rfl | hn2
              · exact Or.inl (Or.inl rfl)
              · exact Or.inr ⟨n2, hn2, hc2, rfl⟩
      | nonFunc v =>
          have hstep : registerOneMethod cls s n = s := by
            unfold registerOneMethod
            rw [hpn]
          have hncall : isCallable cls n = false := by
            unfold isCallable
            rw [hpn]
          rw [hstep]
          constructor
          · rintro (hm | ⟨n2, hn2, hc2, rfl⟩)
            · exact Or.inl hm
            · exact Or.inr ⟨n2, List.mem_cons_of_mem n hn2, hc2, rfl⟩
          · rintro (hm | ⟨n2, hn2, hc2, rfl⟩)
            · exact Or.inl hm
            · rcases List.mem_cons.mp hn2 with rfl | hn2
              · rw [hncall] at hc2
                cases hc2
              · exact Or.inr ⟨n2, hn2, hc2, rfl⟩

/-- C8: on construction of a service instance, a channel is registered exactly
for every decorated method name whose instance property is callable, under the
channel groupName dot name; names whose property was overwritten with a
non-callable value contribute nothing, and a class with zero decorated methods
registers zero channels and leaves the state untouched. -/
theorem c8_registerMethods_channels :
    (∀ (cls : ServiceClass) (s : IpcHandlerState) (c : String),
      c ∈ (registerMethods cls s).registeredChannels ↔
        c ∈ s.registeredChannels ∨
        ∃ n, n ∈ cls.decoratedMethods ∧ isCallable cls n = true ∧
          c = jsString cls.groupName ++ "." ++ n) ∧
    (∀ (cls : ServiceClass) (s : IpcHandlerState),
      cls.decoratedMethods = [] → registerMethods cls s = s) := by
  constructor
  · intro cls s c
    exact mem_foldl_registerOne cls cls.decoratedMethods s c
  · intro cls s hnil
    unfold registerMethods
    rw [hnil]
    rfl

/-- Service class fixture with no decorated methods. -/
def emptyService : ServiceClass :=
  { className := "EmptyService", groupName := some "empty",
    decoratedMethods := [], props := fun _ => .nonFunc (.vstr "x") }

/-- Closed instance of C8 on a service class with zero decorated methods. -/
theorem c8_witness :
    emptyService.decoratedMethods = [] ∧
    registerMethods emptyService initState = initState :=
  ⟨rfl, c8_registerMethods_channels.2 emptyService initState rfl⟩


/-- Finding a key in a list after overwriting the value stored under another
key in place. -/
theorem find?_map_overwrite (m : List (String × ServiceInstance)) (k : String)
    (v : ServiceInstance) (k2 : String) :
    (m.map (fun p => if p.1 = k then (k, v) else p)).find? (fun p => p.1 = k2) =
      if k2 = k then
        (if m.any (fun p => p.1 = k) then some (k, v) else none)
      else m.find? (fun p => p.1 = k2) := by
  induction m with
  | nil =>
      by_cases hk : k2 = k <;> simp [hk]
  | cons p rest ih =>
      rw [List.map_cons]
      by_cases hp : p.1 = k
      · rw [if_pos hp]
        by_cases hk : k2 = k
        · rw [List.find?_cons_of_pos _ (by simp [hk])]
          simp [hk, hp]
        · rw [List.find?_cons_of_neg _ (by simp; exact fun hkk => hk hkk.symm), ih]
          rw [if_neg hk, if_neg hk]
          rw [List.find?_cons_of_neg _ (by simp [hp]; exact fun hq => hk hq.symm)]
      · rw [if_neg hp]
        by_cases hq : p.1 = k2
        · have hkk : ¬k2 = k := fun hkk => hp (hq.symm ▸ hkk)
          rw [List.find?_cons_of_pos _ (by simp [hq])]
          rw [if_neg hkk]
          rw [List.find?_cons_of_pos _ (by simp [hq])]
        · rw [List.find?_cons_of_neg _ (by simp [hq]), ih]
          by_cases hk : k2 = k
          · rw [if_pos hk, if_pos hk, List.any_cons]
            have hdp : decide (p.1 = k) = false := by simp [hp]
            rw [hdp, Bool.false_or]
          · rw [if_neg hk, if_neg hk]
            rw [List.find?_cons_of_neg _ (by simp [hq])]


/-- Reading a key after a JavaScript object assignment: the assigned key now
reads the new value, every other key is untouched. -/
theorem lookupKey_setKey (m : List (String × ServiceInstance)) (k : String)
    (v : ServiceInstance) (k2 : String) :
    lookupKey (setKey m k v) k2 = if k2 = k then some v else lookupKey m k2 := by
  unfold setKey lookupKey
  by_cases hany : (m.any fun p => p.1 = k) = true
  · rw [if_pos hany, find?_map_overwrite]
    by_cases hk : k2 = k
    · rw [if_pos hk, if_pos hk, if_pos hany]
      rfl
    · rw [if_neg hk, if_neg hk]
  · rw [if_neg hany, List.find?_append]
    by_cases hk : k2 = k
    · subst hk
      have hnone : m.find? (fun p => p.1 = k2) = none := by
        rw [List.find?_eq_none]
        intro x hx
        simp only [decide_eq_true_eq]
        intro hxk
        exact hany (List.any_eq_true.mpr ⟨x, hx, by simp [hxk]⟩)
      rw [hnone]
      simp
    · rw [if_neg hk]
      have hsingle : ([(k, v)].find? fun p => p.1 = k2) = none := by
        have hkk : ¬k = k2 := fun h => hk h.symm
        simp [hkk]
      rw [hsingle]
      cases m.find? (fun p => p.1 = k2) <;> rfl


/-- Unfolding equation of lastWithGroup on a cons cell. -/
theorem lastWithGroup_cons (cls : ServiceClass) (rest : List ServiceClass)
    (k : String) :
    lastWithGroup (cls :: rest) k =
      match lastWithGroup rest k with
      | some c => some c
      | none => if usableGroupName cls = some k then some cls else none := rfl

/-- Result of the createServices loop when every class carries a usable
groupName: success, with lookups resolving to the last matching class and
falling back to the accumulator. -/
theorem createServicesAux_ok :
    ∀ (classes : List ServiceClass),
      (∀ cls ∈ classes, (usableGroupName cls).isSome = true) →
      ∀ (acc : List (String × ServiceInstance)) (s : IpcHandlerState),
        ∃ m, (createServicesAux classes acc s).1 = .ok m ∧
          ∀ k, lookupKey m k = (lastWithGroup classes k).or (lookupKey acc k) := by
  intro classes
  induction classes with
  | nil =>
      intro _ acc s
      refine ⟨acc, rfl, fun k => ?_⟩
      simp [lastWithGroup, Option.or]
  | cons cls rest ih =>
      intro hall acc s
      have hcls := hall cls (List.mem_cons_self cls rest)
      cases hg : usableGroupName cls with
      | none =>
          rw [hg] at hcls
          cases hcls
      | some g =>
          have hrest : ∀ c2 ∈ rest, (usableGroupName c2).isSome = true :=
            fun c2 hc2 => hall c2 (List.mem_cons_of_mem cls hc2)
          obtain ⟨m, hm, hlk⟩ := ih hrest (setKey acc g cls) (registerMethods cls s)
          refine ⟨m, ?_, ?_⟩
          · simp only [createServicesAux, hg]
            exact hm
          · intro k
            rw [hlk k, lookupKey_setKey, lastWithGroup_cons]
            cases hlast : lastWithGroup rest k with
            | some c => simp [Option.or]
            | none =>
                rw [hg]
                by_cases hk : k = g
                · subst hk
                  rw [if_pos rfl, if_pos rfl]
                  simp [Option.or]
                · have hne : ¬(some g = some k) := by
                    intro hsome
                    exact hk (Option.some.inj hsome).symm
                  rw [if_neg hne, if_neg hk]


/-- C6: createServices on the empty list returns an empty mapping and leaves
the state unchanged; on a list of classes with usable group names it
constructs the instances in input order and returns a mapping in which every
key resolves to the last input class declaring that groupName, so keys are
exactly the declared group names and a later class silently overwrites an
earlier one sharing its groupName. -/
theorem c6_createServices_mapping :
    (∀ s : IpcHandlerState, createServices [] s = (.ok [], s)) ∧
    (∀ (classes : List ServiceClass) (s : IpcHandlerState),
      (∀ cls ∈ classes, (usableGroupName cls).isSome = true) →
      ∃ m, (createServices classes s).1 = .ok m ∧
        ∀ k, lookupKey m k = lastWithGroup classes k) := by
  constructor
  · intro s
    rfl
  · intro classes s hall
    obtain ⟨m, hm, hlk⟩ := createServicesAux_ok classes hall [] s
    refine ⟨m, hm, fun k => ?_⟩
    rw [hlk k]
    have hempty : lookupKey [] k = none := rfl
    rw [hempty]
    cases lastWithGroup classes k <;> rfl

/-- Service class fixture with group name service1. -/
def svcA : ServiceClass :=
  { className := "Service1", groupName := some "service1",
    decoratedMethods := ["method1"], props := fun _ => .func okHandler }

/-- Service class fixture with group name service2. -/
def svcB : ServiceClass :=
  { className := "Service2", groupName := some "service2",
    decoratedMethods := ["method2"], props := fun _ => .func okHandler }

/-- Closed instance of C6 on two concrete service classes. -/
theorem c6_witness :
    (∀ cls ∈ [svcA, svcB], (usableGroupName cls).isSome = true) ∧
    ∃ m, (createServices [svcA, svcB] initState).1 = .ok m ∧
      ∀ k, lookupKey m k = lastWithGroup [svcA, svcB] k := by
  have hall : ∀ cls ∈ [svcA, svcB], (usableGroupName cls).isSome = true := by
    intro cls hcls
    rcases List.mem_cons.mp hcls with rfl | hcls
    · rfl
    · rcases List.mem_cons.mp hcls with rfl | hcls
      · rfl
      · cases hcls
  exact ⟨hall, c6_createServices_mapping.2 [svcA, svcB] initState hall⟩

/-- Walking the createServices loop over a list holding a class without a
usable groupName always reports the first such class, whatever the
accumulator and state. -/
theorem createServicesAux_err :
    ∀ (classes : List ServiceClass),
      (∃ cls ∈ classes, usableGroupName cls = none) →
      ∃ bad ∈ classes, usableGroupName bad = none ∧
        ∀ (acc : List (String × ServiceInstance)) (s : IpcHandlerState),
          (createServicesAux classes acc s).1 = .error (mkGroupErr bad.className) := by
  intro classes
  induction classes with
  | nil =>
      rintro ⟨cls, hmem, _⟩
      cases hmem
  | cons cls rest ih =>
      intro hex
      cases hg : usableGroupName cls with
      | none =>
          refine ⟨cls, List.mem_cons_self cls rest, hg, ?_⟩
          intro acc s
          simp only [createServicesAux, hg]
      | some g =>
          have hex2 : ∃ c2 ∈ rest, usableGroupName c2 = none := by
            rcases hex with ⟨c2, hmem, hnone⟩
            rcases List.mem_cons.mp hmem with rfl | hmem
            · rw [hg] at hnone
              cases hnone
            · exact ⟨c2, hmem, hnone⟩
          obtain ⟨bad, hmem, hnone, herr⟩ := ih hex2
          refine ⟨bad, List.mem_cons_of_mem cls hmem, hnone, ?_⟩
          intro acc s
          simp only [createServicesAux, hg]
          exact herr (setKey acc g cls) (registerMethods cls s)

/-- C7: when some class in the list lacks a usable groupName (missing or
empty), createServices raises an error whose message names an offending class
and never returns a mapping for that call. -/
theorem c7_createServices_missing_groupName
    (classes : List ServiceClass) (s : IpcHandlerState)
    (hex : ∃ cls ∈ classes, usableGroupName cls = none) :
    ∃ bad ∈ classes, usableGroupName bad = none ∧
      (createServices classes s).1 = .error (mkGroupErr bad.className) ∧
      ∀ m, (createServices classes s).1 ≠ .ok m := by
  obtain ⟨bad, hmem, hnone, herr⟩ := createServicesAux_err classes hex
  refine ⟨bad, hmem, hnone, herr [] s, ?_⟩
  intro m hcontra
  rw [show (createServices classes s).1 = .error (mkGroupErr bad.className) from herr [] s] at hcontra
  cases hcontra

/-- Service class fixture lacking a groupName. -/
def invalidService : ServiceClass :=
  { className := "InvalidService", groupName := none,
    decoratedMethods := [], props := fun _ => .nonFunc (.vstr "x") }

/-- Closed instance of C7 on a concrete class without a groupName. -/
theorem c7_witness :
    (∃ cls ∈ [invalidService], usableGroupName cls = none) ∧
    ∃ bad ∈ [invalidService], usableGroupName bad = none ∧
      (createServices [invalidService] initState).1 = .error (mkGroupErr bad.className) ∧
      ∀ m, (createServices [invalidService] initState).1 ≠ .ok m := by
  have hex : ∃ cls ∈ [invalidService], usableGroupName cls = none :=
    ⟨invalidService, List.mem_cons_self invalidService [], rfl⟩
  exact ⟨hex, c7_createServices_missing_groupName [invalidService] initState hex⟩


/-- C10: createServices is not atomic on failure. For a class whose static
groupName is missing, the instance is constructed (its constructor registers
every decorated callable method) before the groupName check runs, so the
raised missing-groupName error leaves the state of the post-construction
registration in place, and each decorated callable method is already
registered under the channel undefined dot methodName. -/
theorem c10_construct_before_check
    (cls : ServiceClass) (rest : List ServiceClass) (s : IpcHandlerState)
    (hmiss : cls.groupName = none) :
    createServices (cls :: rest) s =
      (.error (mkGroupErr cls.className), registerMethods cls s) ∧
    ∀ n, n ∈ cls.decoratedMethods → isCallable cls n = true →
      ("undefined." ++ n) ∈ (createServices (cls :: rest) s).2.registeredChannels := by
  have hg : usableGroupName cls = none := by
    unfold usableGroupName
    rw [hmiss]
  have heq : createServices (cls :: rest) s =
      (.error (mkGroupErr cls.className), registerMethods cls s) := by
    unfold createServices
    simp only [createServicesAux, hg]
  refine ⟨heq, ?_⟩
  intro n hn hcall
  rw [heq]
  have hstr : jsString cls.groupName ++ "." ++ n = "undefined." ++ n := by
    rw [hmiss]
    rfl
  show ("undefined." ++ n) ∈ (registerMethods cls s).registeredChannels
  unfold registerMethods
  exact (mem_foldl_registerOne cls cls.decoratedMethods s ("undefined." ++ n)).mpr
    (Or.inr ⟨n, hn, hcall, hstr.symm⟩)

/-- Service class fixture lacking a groupName but declaring a callable method. -/
def badService : ServiceClass :=
  { className := "BadService", groupName := none,
    decoratedMethods := ["ping"], props := fun _ => .func okHandler }

/-- Closed instance of C10 on a concrete class without a groupName. -/
theorem c10_witness :
    badService.groupName = none ∧
    "ping" ∈ badService.decoratedMethods ∧ isCallable badService "ping" = true ∧
    ("undefined." ++ "ping") ∈
      (createServices [badService] initState).2.registeredChannels := by
  have h := c10_construct_before_check badService [] initState rfl
  exact ⟨rfl, List.mem_cons_self "ping" [], rfl,
    h.2 "ping" (List.mem_cons_self "ping" []) rfl⟩

